import Mathlib

/-!
Verification of the `charm-juju-backup-all` helper module (`src/utils.py`).

The development shallowly embeds the helper's pure logic and its
orchestration loops.  External library calls (base64 decoding, MD5 hashing,
the libjuju client, the backup-processing library, YAML parsing) are
abstracted as function parameters or as fields of an environment record;
the control flow, string manipulation, exception handling and call
sequencing of the Python module are translated directly.
-/

set_option linter.unusedVariables false

/-! ### Python string primitives used by the module -/

/-- ASCII whitespace recognised by Python `str.split()` / `str.strip()`. -/
def isSpaceChar (ch : Char) : Bool :=
  ch == ' ' || ch == '\t' || ch == '\n' || ch == '\r' || ch == '\x0b' || ch == '\x0c'

/-- Worker for `splitWS`: accumulates the current word (reversed). -/
def splitWSAux (cur : List Char) : List Char → List (List Char)
  | [] => if cur.isEmpty then [] else [cur.reverse]
  | ch :: rest =>
    if isSpaceChar ch then
      (if cur.isEmpty then splitWSAux [] rest else cur.reverse :: splitWSAux [] rest)
    else splitWSAux (ch :: cur) rest

/-- Python `s.split()` with no argument: split on runs of whitespace,
dropping empty fields. -/
def splitWS (s : String) : List String :=
  (splitWSAux [] s.data).map String.mk

/-- Python `s.strip()`: remove leading and trailing whitespace. -/
def pyStrip (s : String) : String :=
  String.mk (((s.data.dropWhile isSpaceChar).reverse.dropWhile isSpaceChar).reverse)

/-! ### Fingerprint rendering

`_gen_libjuju_ssh_key_fingerprint` renders the colon-separated digest via
`":".join(a + b for a, b in zip(s[::2], s[1::2]))`.  `everyOther l` is the
slice `l[::2]`; the slice `l[1::2]` is `everyOther (l.drop 1)`. -/

/-- Python slice `l[::2]`. -/
def everyOther {α : Type} : List α → List α
  | [] => []
  | [a] => [a]
  | a :: _ :: t => a :: everyOther t

/-- The code's rendering: zip the even-index and odd-index slices,
concatenate each pair, join with colons. -/
def zip_colon_join (hex : String) : String :=
  String.intercalate ":"
    (((everyOther hex.data).zip (everyOther (hex.data.drop 1))).map
      (fun p => String.mk [p.1, p.2]))

/-- Embedding of `SSHKeyHelper._gen_libjuju_ssh_key_fingerprint` applied to a
raw public-key string.  `md5hex` abstracts `hashlib.md5(...).hexdigest()`
(lowercase hex of the MD5 digest) and `b64decode` abstracts
`base64.b64decode`.  The tuple unpacking `key_type, key_body, key_comment =
raw_pubkey.split()` raises `ValueError` whenever the field count is not
three; the module logs and re-raises, modelled as `Except.error`. -/
def gen_libjuju_ssh_key_fingerprint (md5hex : List Nat → String)
    (b64decode : String → List Nat) (raw_pubkey : String) : Except String String :=
  match splitWS raw_pubkey with
  | [_key_type, key_body, key_comment] =>
    let key := b64decode key_body
    let key_fp_plain := md5hex key
    let key_fp := zip_colon_join key_fp_plain
    .ok (key_fp ++ " (" ++ key_comment ++ ")")
  | _ => .error "Invalid ssh pubkey"

/-! ### Specification-side rendering (for the refinement statement of C1) -/

/-- Group a list into consecutive pairs (dropping an odd trailing element). -/
def pairUp {α : Type} : List α → List (α × α)
  | a :: b :: t => (a, b) :: pairUp t
  | _ => []

/-- Modelled from the spec: "render as lowercase hex; insert a colon between
every pair of hex characters". -/
def spec_colon_hex (hex : String) : String :=
  String.intercalate ":" ((pairUp hex.data).map (fun p => String.mk [p.1, p.2]))

/-- Modelled from the spec: "append a single space then the comment field
wrapped in parentheses" after the colon-grouped digest. -/
def spec_fingerprint (md5hexOfBody : String) (comment : String) : String :=
  spec_colon_hex md5hexOfBody ++ " (" ++ comment ++ ")"

/-! ### Environment and event trace for `SSHKeyHelper.push_ssh_keys_to_models`

The libjuju client and the filesystem are abstracted as an environment
record (`World`): each field gives the outcome (`Except.error` = the Python
call raises) of one external call.  The loop is embedded as a trace-producing
interpreter: every external call appends an `Event`, a raised exception stops
the enclosing body exactly as in Python, and the `try/except Exception:
logging.error(...)` blocks of the source convert the pending exception into a
`logError` event and resume the loop. -/

/-- One observable action of the helper module. -/
inductive Event where
  | ctrlConnect (c : String)
  | ctrlClose (c : String)
  | listModelsCall (c : String)
  | mdlConnect (c m : String)
  | mdlClose (c m : String)
  | getKeysCall (c m : String)
  | addKeyCall (c m user pubkey : String)
  | logError
  | writeFile (path content : String)
  | mkdirCall (path : String)
  deriving DecidableEq

/-- Outcomes of the external calls made during key propagation. -/
structure World where
  controllerNames : List String
  readPubkey : Option String
  connectController : String → Except String Unit
  listModels : String → Except String (List String)
  connectModel : String → String → Except String Unit
  accountUser : String → Except String String
  getKeysReply : String → String → Except String (Option (List String))
  addKey : String → String → Except String Unit

/-- Embedding of `SSHKeyHelper._get_model_ssh_key_fingeprints`:
`fingerprints = libjuju_keyinfo.get("results")[0]["result"]; return
fingerprints if fingerprints else []`.  `none` models a null `result` field;
the Python falsiness test maps both `None` and `[]` to `[]`. -/
def get_model_ssh_key_fingeprints (reply : Option (List String)) : List String :=
  match reply with
  | none => []
  | some fps => if fps.isEmpty then [] else fps

/-- The body executed inside `with connect_model(...)`: look up the account
username, fetch the model's key fingerprints, and add the key when the
fingerprint is absent.  Returns the emitted events together with the
exception (if any) escaping the body. -/
def model_body (w : World) (fp pubkey c m : String) : List Event × Option String :=
  match w.accountUser c with
  | .error e => ([], some e)
  | .ok user =>
    match w.getKeysReply c m with
    | .error e => ([.getKeysCall c m], some e)
    | .ok reply =>
      if fp ∈ get_model_ssh_key_fingeprints reply then
        ([.getKeysCall c m], none)
      else
        match w.addKey c m with
        | .error e => ([.getKeysCall c m, .addKeyCall c m user pubkey], some e)
        | .ok _ => ([.getKeysCall c m, .addKeyCall c m user pubkey], none)

/-- The `with connect_model(controller, model_name)` statement: a failing
connect raises without acquiring; a successful connect always runs the exit
handler (`mdlClose`) before re-raising any body exception. -/
def with_model (w : World) (fp pubkey c m : String) : List Event × Option String :=
  match w.connectModel c m with
  | .error e => ([.mdlConnect c m], some e)
  | .ok _ =>
    let r := model_body w fp pubkey c m
    (.mdlConnect c m :: (r.1 ++ [.mdlClose c m]), r.2)

/-- The per-model `try ... except Exception: logging.error(...)`: any
exception from the model's processing is logged and swallowed. -/
def process_model (w : World) (fp pubkey c m : String) : List Event :=
  match with_model w fp pubkey c m with
  | (evs, none) => evs
  | (evs, some _) => evs ++ [.logError]

/-- A Python `for` loop whose body appends events. -/
def forEachAppend {α β : Type} (f : α → List β) : List α → List β
  | [] => []
  | a :: t => f a ++ forEachAppend f t

/-- The body executed inside `with connect_controller(...)`: list the models
(a raising `list_models` escapes the body), then process each model. -/
def controller_body (w : World) (fp pubkey c : String) : List Event × Option String :=
  match w.listModels c with
  | .error e => ([.listModelsCall c], some e)
  | .ok ms => (.listModelsCall c :: forEachAppend (process_model w fp pubkey c) ms, none)

/-- The `with connect_controller(controller_name)` statement. -/
def with_controller (w : World) (fp pubkey c : String) : List Event × Option String :=
  match w.connectController c with
  | .error e => ([.ctrlConnect c], some e)
  | .ok _ =>
    let r := controller_body w fp pubkey c
    (.ctrlConnect c :: (r.1 ++ [.ctrlClose c]), r.2)

/-- The per-controller `try ... except Exception: logging.error(...)`. -/
def process_controller (w : World) (fp pubkey c : String) : List Event :=
  match with_controller w fp pubkey c with
  | (evs, none) => evs
  | (evs, some _) => evs ++ [.logError]

/-- The fan-out loop of `push_ssh_keys_to_models` over
`backup_processor.controller_names`, after the public key has been read and
fingerprinted. -/
def push_loop (w : World) (fp pubkey : String) : List Event :=
  forEachAppend (process_controller w fp pubkey) w.controllerNames

/-- Embedding of `SSHKeyHelper.push_ssh_keys_to_models`: read and strip the
public key (a failing read raises uncaught), compute its fingerprint
(a malformed key raises uncaught), then run the fan-out loop. -/
def push_ssh_keys_to_models (w : World) (md5hex : List Nat → String)
    (b64decode : String → List Nat) : Except String (List Event) :=
  match w.readPubkey with
  | none => .error "pubkey read failed"
  | some raw =>
    match gen_libjuju_ssh_key_fingerprint md5hex b64decode (pyStrip raw) with
    | .error e => .error e
    | .ok fp => .ok (push_loop w fp (pyStrip raw))

/-- Embedding of `JujuBackupAllHelper.push_ssh_keys`: run the helper and
return the literal string `"success"`. -/
def push_ssh_keys (w : World) (md5hex : List Nat → String)
    (b64decode : String → List Nat) : Except String String :=
  match push_ssh_keys_to_models w md5hex b64decode with
  | .error e => .error e
  | .ok _ => .ok "success"

/-! ### Connection scoping (for C7)

A small state machine over traces: the number of controller connections and
model connections currently open.  A connect event opens a connection only
when the corresponding call in the environment succeeds (a raising
`connect_controller` / `connect_model` acquires nothing). -/

/-- Whether an `Except` value models a non-raising call. -/
def exOk {ε α : Type} : Except ε α → Bool
  | .ok _ => true
  | .error _ => false

/-- Effect of one event on the (open controller, open model) counters. -/
def connStep (w : World) (s : Nat × Nat) (e : Event) : Nat × Nat :=
  match e with
  | .ctrlConnect c => if exOk (w.connectController c) then (s.1 + 1, s.2) else s
  | .ctrlClose _ => (s.1 - 1, s.2)
  | .mdlConnect c m => if exOk (w.connectModel c m) then (s.1, s.2 + 1) else s
  | .mdlClose _ _ => (s.1, s.2 - 1)
  | _ => s

/-- Final counters after a trace. -/
def connRun (w : World) (s : Nat × Nat) (evs : List Event) : Nat × Nat :=
  List.foldl (connStep w) s evs

/-- At most one controller connection and one model connection open. -/
def connBounded (s : Nat × Nat) : Bool :=
  decide (s.1 ≤ 1) && decide (s.2 ≤ 1)

/-- Predicate `connBounded` holds at every intermediate state of the trace. -/
def connOkFrom (w : World) : Nat × Nat → List Event → Bool
  | s, [] => connBounded s
  | s, e :: t => connBounded s && connOkFrom w (connStep w s e) t

/-! ### Event classification (for C2, C9, C10) -/

/-- An add-key call addressed to model `m` of controller `c`. -/
def isAddKeyFor (c m : String) : Event → Bool
  | .addKeyCall cc mm _ _ => cc == c && mm == m
  | _ => false

/-- Events that mutate local state (file writes, directory creation). -/
def isLocalMutation : Event → Bool
  | .writeFile _ _ => true
  | .mkdirCall _ => true
  | _ => false

/-! ### Embedding of `JujuBackupAllHelper.validate_config` -/

/-- What the module observes about a parsed YAML document: a mapping with
its top-level keys, or any non-mapping value (scalars, sequences, null). -/
inductive YamlVal where
  | mapping (keys : List String)
  | nonMapping

/-- One iteration of the validation loop: `yaml.safe_load` (a raising parse
is the `ParserError` branch), `assert type(content_dict) == dict`,
`assert "controllers" in content_dict`.  Both exception classes land in the
same `except` clause, hence a single `Bool`. -/
def checkYamlField (parse : String → Except Unit YamlVal) (content : String) : Bool :=
  match parse content with
  | .error _ => false
  | .ok (.mapping keys) => keys.contains "controllers"
  | .ok .nonMapping => false

/-- The loop of `validate_config` over named config options: on the first
failing option return `False` with the `BlockedStatus` message; if all pass
return `True` with no status change. -/
def validate_fields (parse : String → Except Unit YamlVal) :
    List (String × String) → Bool × Option String
  | [] => (true, none)
  | (name, content) :: rest =>
    if checkYamlField parse content then validate_fields parse rest
    else (false, some ("Invalid yaml for \x27" ++ name ++ "\x27 option"))

/-- Embedding of `JujuBackupAllHelper.validate_config`: check the
`controllers` and `accounts` options in order. -/
def validate_config (parse : String → Except Unit YamlVal)
    (controllersRaw accountsRaw : String) : Bool × Option String :=
  validate_fields parse [("controllers", controllersRaw), ("accounts", accountsRaw)]

/-- Modelled from the spec: an option is acceptable when it parses as a YAML
mapping containing the top-level key "controllers". -/
def fieldAccepted (parse : String → Except Unit YamlVal) (content : String) : Prop :=
  ∃ keys, parse content = .ok (YamlVal.mapping keys) ∧ "controllers" ∈ keys

/-! ### Embedding of `JujuBackupAllHelper.update_crontab` and
`JujuBackupAllHelper.perform_backup` -/

/-- Worker for `pySplit`. -/
def pySplitAux (sep : Char) (cur : List Char) : List Char → List (List Char)
  | [] => [cur.reverse]
  | ch :: rest =>
    if ch == sep then cur.reverse :: pySplitAux sep [] rest
    else pySplitAux sep (ch :: cur) rest

/-- Python `s.split(sep)` for a one-character separator: split at every
occurrence, keeping empty fields. -/
def pySplit (s : String) (sep : Char) : List String :=
  (pySplitAux sep [] s.data).map String.mk

/-- The charm config options and paths used by `update_crontab`.  The path
constants live in `config.py`, which is not part of the module under
verification, so they are abstract fields.  `backup-retention-period` and
`timeout` are integers (Python truthiness: nonzero), `exclude-models` is a
comma-separated string (truthiness: nonempty). -/
structure CrontabConfig where
  crontab : String
  backupRetentionPeriod : Nat
  timeout : Nat
  excludeModels : String
  autoBackupScriptPath : String
  autoBackupLogPath : String
  crontabPath : String

/-- The cron line built by `update_crontab`. -/
def cron_job_text (cfg : CrontabConfig) : String :=
  let path := "PATH=/usr/bin:/bin:/snap/bin"
  let base := path ++ "\n" ++ cfg.crontab ++ " " ++ "root" ++ " "
      ++ cfg.autoBackupScriptPath ++ " --debug"
  let s1 := if cfg.backupRetentionPeriod ≠ 0 then
      base ++ " --purge " ++ toString cfg.backupRetentionPeriod else base
  let s2 := if cfg.timeout ≠ 0 then
      s1 ++ " --task-timeout " ++ toString cfg.timeout else s1
  let s3 := if cfg.excludeModels ≠ "" then
      s2 ++ " " ++ String.intercalate " "
        ((pySplit cfg.excludeModels ',').map (fun m => "--omit-model " ++ m))
    else s2
  s3 ++ " >> " ++ cfg.autoBackupLogPath ++ " 2>&1\n"

/-- Embedding of `update_crontab`: write the cron line to the crontab path. -/
def update_crontab (cfg : CrontabConfig) : List Event :=
  [Event.writeFile cfg.crontabPath (cron_job_text cfg)]

/-- The call made by `perform_backup` into the backup-processing library:
`backup_processor.process_backups(omit_models=omit_models)`. -/
structure ProcessBackupsCall where
  method : String
  omit_models : Option (List String)

/-- Embedding of the delegation in `JujuBackupAllHelper.perform_backup`. -/
def perform_backup_call (omitModels : Option (List String)) : ProcessBackupsCall :=
  { method := "process_backups", omit_models := omitModels }

/-! ### Substring occurrence (used to state flag presence in C8) -/

/-- Test `leadsList p s`: `p` matches the beginning of `s`. -/
def leadsList : List Char → List Char → Bool
  | [], _ => true
  | _ :: _, [] => false
  | p :: ps, c :: cs => p == c && leadsList ps cs

/-- Test `occursIn p s`: `p` occurs as a contiguous segment of `s`. -/
def occursIn (pat : List Char) : List Char → Bool
  | [] => leadsList pat []
  | c :: t => leadsList pat (c :: t) || occursIn pat t

/-- Whether `pat` occurs as a substring of `s`. -/
def containsStr (s pat : String) : Bool := occursIn pat.data s.data

/-! ### Concrete inputs used by the witnesses -/

/-- A stand-in MD5 hex digest function (constant 32-char digest). -/
def mdWit : List Nat → String := fun _ => "0123456789abcdef0123456789abcdef"

/-- A stand-in base64 decoder. -/
def b64Wit : String → List Nat := fun _ => [65, 66, 67]

/-- A world where every external call succeeds; the target model already
holds a different fingerprint, so the candidate key gets added. -/
def wAllOk : World :=
  { controllerNames := ["ctl1", "ctl2"]
    readPubkey := some "ssh-rsa QUJD juju-backup"
    connectController := fun _ => .ok ()
    listModels := fun _ => .ok ["model1", "model2"]
    connectModel := fun _ _ => .ok ()
    accountUser := fun _ => .ok "admin"
    getKeysReply := fun _ _ => .ok (some ["aa:bb (other)"])
    addKey := fun _ _ => .ok () }

/-- A world with injected failures: controller "bad" cannot be reached and
fetching the keys of model "m1" of controller "good" raises. -/
def wFaulty : World :=
  { controllerNames := ["bad", "good"]
    readPubkey := some "ssh-rsa QUJD juju-backup"
    connectController := fun c => if c == "bad" then .error "unreachable" else .ok ()
    listModels := fun _ => .ok ["m1", "m2"]
    connectModel := fun _ _ => .ok ()
    accountUser := fun _ => .ok "admin"
    getKeysReply := fun _ m => if m == "m1" then .error "boom" else .ok (some [])
    addKey := fun _ _ => .ok () }

/-- A world whose only model reports a null authorized-keys result. -/
def wNullKeys : World :=
  { controllerNames := ["ctl1"]
    readPubkey := some "ssh-rsa QUJD juju-backup"
    connectController := fun _ => .ok ()
    listModels := fun _ => .ok ["model1"]
    connectModel := fun _ _ => .ok ()
    accountUser := fun _ => .ok "admin"
    getKeysReply := fun _ _ => .ok none
    addKey := fun _ _ => .ok () }

/-- A concrete charm config for the crontab construction. -/
def cfgCex : CrontabConfig :=
  { crontab := "30 4 * * *"
    backupRetentionPeriod := 7
    timeout := 3600
    excludeModels := "modelA,modelB"
    autoBackupScriptPath := "/usr/local/lib/juju-backup-all/auto_backup.py"
    autoBackupLogPath := "/var/log/auto-backup.log"
    crontabPath := "/etc/cron.d/juju-backup-all" }

/-! ## Theorems -/

/-! ### Slicing lemmas -/

theorem everyOther_cons {α : Type} (x : α) (t : List α) :
    everyOther (x :: t) = x :: everyOther (t.drop 1) := by
  cases t <;> rfl

theorem zip_everyOther_eq_pairUp {α : Type} :
    ∀ s : List α, (everyOther s).zip (everyOther (s.drop 1)) = pairUp s
  | [] => rfl
  | [a] => rfl
  | a :: b :: t => by
    rw [show everyOther (a :: b :: t) = a :: everyOther t from rfl]
    rw [show (a :: b :: t).drop 1 = b :: t from rfl]
    rw [everyOther_cons b t]
    rw [List.zip_cons_cons]
    rw [zip_everyOther_eq_pairUp t]
    rfl

theorem zip_colon_join_eq_spec (hex : String) :
    zip_colon_join hex = spec_colon_hex hex := by
  unfold zip_colon_join spec_colon_hex
  rw [zip_everyOther_eq_pairUp]

/-- C1: for every public-key line splitting into exactly three
whitespace-separated fields, the fingerprint function returns the
colon-grouped lowercase-hex MD5 of the base64-decoded body, a space, and
the comment in parentheses.  MD5 and base64 are external-library calls,
abstracted as the parameters `md5hex` and `b64decode`. -/
theorem claim_C1_fingerprint_format (md5hex : List Nat → String)
    (b64decode : String → List Nat) (raw t b c : String)
    (h : splitWS raw = [t, b, c]) :
    gen_libjuju_ssh_key_fingerprint md5hex b64decode raw =
      .ok (spec_fingerprint (md5hex (b64decode b)) c) := by
  unfold gen_libjuju_ssh_key_fingerprint
  rw [h]
  show Except.ok (zip_colon_join (md5hex (b64decode b)) ++ " (" ++ c ++ ")") = _
  rw [zip_colon_join_eq_spec]
  rfl

theorem claim_C1_witness :
    gen_libjuju_ssh_key_fingerprint mdWit b64Wit "ssh-rsa QUJD juju-backup" =
      .ok (spec_fingerprint (mdWit (b64Wit "QUJD")) "juju-backup") :=
  claim_C1_fingerprint_format mdWit b64Wit "ssh-rsa QUJD juju-backup"
    "ssh-rsa" "QUJD" "juju-backup" (by decide)

/-- C6: an input key string with a whitespace-separated field count other
than three makes the fingerprint function raise (the tuple unpacking raises
`ValueError`, which is logged and re-raised); it never returns a
fingerprint. -/
theorem claim_C6_malformed_key_raises (md5hex : List Nat → String)
    (b64decode : String → List Nat) (raw : String)
    (h : (splitWS raw).length ≠ 3) :
    gen_libjuju_ssh_key_fingerprint md5hex b64decode raw =
      .error "Invalid ssh pubkey" := by
  unfold gen_libjuju_ssh_key_fingerprint
  rcases hl : splitWS raw with _ | ⟨a, _ | ⟨b, _ | ⟨c, _ | ⟨d, t⟩⟩⟩⟩
  · rfl
  · rfl
  · rfl
  · rw [hl] at h; simp at h
  · rfl

theorem claim_C6_witness :
    gen_libjuju_ssh_key_fingerprint mdWit b64Wit "ssh-rsa onlytwofields" =
      .error "Invalid ssh pubkey" :=
  claim_C6_malformed_key_raises mdWit b64Wit "ssh-rsa onlytwofields" (by decide)

/-! ### Trace lemmas for the propagation loop -/

theorem mem_forEachAppend {α β : Type} (f : α → List β) (l : List α) (x : β) :
    x ∈ forEachAppend f l ↔ ∃ a ∈ l, x ∈ f a := by
  induction l with
  | nil => simp [forEachAppend]
  | cons a t ih => simp [forEachAppend, List.mem_append, ih]

theorem countP_forEachAppend {α β : Type} (p : β → Bool) (f : α → List β)
    (l : List α) :
    (forEachAppend f l).countP p = (l.map (fun a => (f a).countP p)).sum := by
  induction l with
  | nil => rfl
  | cons a t ih => simp [forEachAppend, List.countP_append, ih]

theorem mem_process_model (w : World) (fp pk c m : String) (e : Event)
    (he : e ∈ process_model w fp pk c m) :
    e = .mdlConnect c m ∨ e = .mdlClose c m ∨ e = .getKeysCall c m ∨
    e = .logError ∨ ∃ u, w.accountUser c = .ok u ∧ e = .addKeyCall c m u pk := by
  unfold process_model with_model model_body at he
  rcases hcm : w.connectModel c m with e1 | u1 <;> simp only [hcm] at he
  · simp at he; tauto
  · rcases hu : w.accountUser c with e2 | user <;> simp only [hu] at he
    · simp at he; tauto
    · rcases hr : w.getKeysReply c m with e3 | reply <;> simp only [hr] at he
      · simp at he; tauto
      · by_cases hfp : fp ∈ get_model_ssh_key_fingeprints reply
        · rw [if_pos hfp] at he; simp at he; tauto
        · rw [if_neg hfp] at he
          rcases hak : w.addKey c m with e4 | u4 <;> simp only [hak] at he <;>
            simp at he <;> tauto

theorem mem_process_controller (w : World) (fp pk c : String) (e : Event)
    (he : e ∈ process_controller w fp pk c) :
    e = .ctrlConnect c ∨ e = .ctrlClose c ∨ e = .listModelsCall c ∨
    e = .logError ∨
    ∃ ms m, w.listModels c = .ok ms ∧ m ∈ ms ∧ e ∈ process_model w fp pk c m := by
  unfold process_controller with_controller controller_body at he
  rcases hcc : w.connectController c with e1 | u1 <;> simp only [hcc] at he
  · simp at he; tauto
  · rcases hlm : w.listModels c with e2 | ms <;> simp only [hlm] at he
    · simp at he; tauto
    · simp only [List.mem_cons, List.mem_append, mem_forEachAppend] at he
      rcases he with h | h | h
      · tauto
      · rcases h with h | ⟨mm, hmm, hin⟩
        · tauto
        · exact Or.inr (Or.inr (Or.inr (Or.inr ⟨ms, mm, rfl, hmm, hin⟩)))
      · simp at h; tauto

/-- C9: the key-propagation loop performs no local mutation: its trace
contains no file write and no directory creation, whatever the outcomes of
the remote calls. -/
theorem claim_C9_no_local_mutation (w : World) (fp pk : String) :
    (push_loop w fp pk).countP isLocalMutation = 0 := by
  rw [List.countP_eq_zero]
  intro e he
  unfold push_loop at he
  rw [mem_forEachAppend] at he
  obtain ⟨c, hc, he⟩ := he
  rcases mem_process_controller w fp pk c e he with h | h | h | h | ⟨ms, m, _, _, hin⟩
  · subst h; simp [isLocalMutation]
  · subst h; simp [isLocalMutation]
  · subst h; simp [isLocalMutation]
  · subst h; simp [isLocalMutation]
  · rcases mem_process_model w fp pk c m e hin with h | h | h | h | ⟨u, _, h⟩ <;>
      subst h <;> simp [isLocalMutation]

/-! ### Counting add-key calls (C2, C10) -/

theorem addKey_count_other_model (w : World) (fp pk c m c' m' : String)
    (h : ¬(c' = c ∧ m' = m)) :
    (process_model w fp pk c' m').countP (isAddKeyFor c m) = 0 := by
  rw [List.countP_eq_zero]
  intro e he
  rcases mem_process_model w fp pk c' m' e he with h1 | h1 | h1 | h1 | ⟨u, _, h1⟩ <;>
    subst h1 <;> simp [isAddKeyFor]
  intro hc hm
  exact h ⟨hc, hm⟩

theorem addKey_count_other_controller (w : World) (fp pk c m c' : String)
    (h : c' ≠ c) :
    (process_controller w fp pk c').countP (isAddKeyFor c m) = 0 := by
  rw [List.countP_eq_zero]
  intro e he
  rcases mem_process_controller w fp pk c' e he with h1 | h1 | h1 | h1 | ⟨ms, mm, _, _, hin⟩
  · subst h1; simp [isAddKeyFor]
  · subst h1; simp [isAddKeyFor]
  · subst h1; simp [isAddKeyFor]
  · subst h1; simp [isAddKeyFor]
  · rcases mem_process_model w fp pk c' mm e hin with h2 | h2 | h2 | h2 | ⟨u, _, h2⟩ <;>
      subst h2 <;> simp [isAddKeyFor]
    intro hc
    exact absurd hc h

theorem countP_forEachAppend_single {α β : Type} (p : β → Bool) (f : α → List β)
    (l : List α) (a : α) (hnd : l.Nodup) (ha : a ∈ l)
    (hz : ∀ b ∈ l, b ≠ a → (f b).countP p = 0) :
    (forEachAppend f l).countP p = (f a).countP p := by
  induction l with
  | nil => cases ha
  | cons b t ih =>
    rw [forEachAppend, List.countP_append]
    rcases List.mem_cons.mp ha with hba | hat
    · subst hba
      have ht : (forEachAppend f t).countP p = 0 := by
        rw [countP_forEachAppend]
        apply List.sum_eq_zero
        intro x hx
        rw [List.mem_map] at hx
        obtain ⟨b', hb', rfl⟩ := hx
        refine hz b' (List.mem_cons_of_mem _ hb') (fun hba => ?_)
        exact (List.nodup_cons.mp hnd).1 (hba ▸ hb')
      rw [ht]
      omega
    · have hbna : b ≠ a := fun hba => (List.nodup_cons.mp hnd).1 (hba ▸ hat)
      rw [hz b (List.mem_cons_self _ _) hbna,
        ih (List.nodup_cons.mp hnd).2 hat
          (fun b' hb' hb'a => hz b' (List.mem_cons_of_mem _ hb') hb'a)]
      omega

theorem count_process_model_target (w : World) (fp pk c m u : String)
    (r : Option (List String))
    (hcm : w.connectModel c m = .ok ()) (hu : w.accountUser c = .ok u)
    (hr : w.getKeysReply c m = .ok r) :
    (process_model w fp pk c m).countP (isAddKeyFor c m) =
      (if fp ∈ get_model_ssh_key_fingeprints r then 0 else 1) ∧
    (fp ∉ get_model_ssh_key_fingeprints r →
      Event.addKeyCall c m u pk ∈ process_model w fp pk c m) := by
  unfold process_model with_model model_body
  by_cases hfp : fp ∈ get_model_ssh_key_fingeprints r
  · simp [hcm, hu, hr, hfp, isAddKeyFor, List.countP_cons]
  · rcases hak : w.addKey c m with e1 | u1 <;>
      simp [hcm, hu, hr, hfp, hak, isAddKeyFor, List.countP_cons, List.countP_append]

theorem process_controller_ok_shape (w : World) (fp pk c : String)
    (ms : List String)
    (hcc : w.connectController c = .ok ()) (hlm : w.listModels c = .ok ms) :
    process_controller w fp pk c =
      .ctrlConnect c ::
        ((.listModelsCall c :: forEachAppend (process_model w fp pk c) ms)
          ++ [.ctrlClose c]) := by
  unfold process_controller with_controller controller_body
  rw [hcc, hlm]

theorem count_process_controller_target (w : World) (fp pk c m u : String)
    (r : Option (List String)) (ms : List String)
    (hcc : w.connectController c = .ok ()) (hlm : w.listModels c = .ok ms)
    (hnd : ms.Nodup) (hm : m ∈ ms)
    (hcm : w.connectModel c m = .ok ()) (hu : w.accountUser c = .ok u)
    (hr : w.getKeysReply c m = .ok r) :
    (process_controller w fp pk c).countP (isAddKeyFor c m) =
      (if fp ∈ get_model_ssh_key_fingeprints r then 0 else 1) ∧
    (fp ∉ get_model_ssh_key_fingeprints r →
      Event.addKeyCall c m u pk ∈ process_controller w fp pk c) := by
  have hsingle := countP_forEachAppend_single (isAddKeyFor c m)
    (process_model w fp pk c) ms m hnd hm
    (fun m' hm' hne =>
      addKey_count_other_model w fp pk c m c m' (fun hp => hne hp.2))
  have htg := count_process_model_target w fp pk c m u r hcm hu hr
  rw [process_controller_ok_shape w fp pk c ms hcc hlm]
  constructor
  · simp [List.countP_cons, List.countP_append, isAddKeyFor, hsingle, htg.1]
  · intro hn
    have hmem := htg.2 hn
    simp only [List.mem_cons, List.mem_append, mem_forEachAppend]
    exact Or.inr (Or.inl (Or.inr ⟨m, hm, hmem⟩))

/-- C2: during key propagation, a model whose fetched fingerprints contain
the candidate fingerprint receives zero add-key calls, and a model where it
is absent receives exactly one add-key call, issued under the account
username configured for that model's controller. -/
theorem claim_C2_add_key_calls (w : World) (fp pk c m u : String)
    (r : Option (List String)) (ms : List String)
    (hndC : w.controllerNames.Nodup) (hc : c ∈ w.controllerNames)
    (hcc : w.connectController c = .ok ()) (hlm : w.listModels c = .ok ms)
    (hndM : ms.Nodup) (hm : m ∈ ms)
    (hcm : w.connectModel c m = .ok ()) (hu : w.accountUser c = .ok u)
    (hr : w.getKeysReply c m = .ok r) :
    if fp ∈ get_model_ssh_key_fingeprints r then
      (push_loop w fp pk).countP (isAddKeyFor c m) = 0
    else
      (push_loop w fp pk).countP (isAddKeyFor c m) = 1 ∧
        Event.addKeyCall c m u pk ∈ push_loop w fp pk := by
  have hone := countP_forEachAppend_single (isAddKeyFor c m)
    (process_controller w fp pk) w.controllerNames c hndC hc
    (fun c' hc' hne => addKey_count_other_controller w fp pk c m c' hne)
  have hct := count_process_controller_target w fp pk c m u r ms hcc hlm
    hndM hm hcm hu hr
  unfold push_loop
  by_cases hfp : fp ∈ get_model_ssh_key_fingeprints r
  · rw [if_pos hfp, hone, hct.1, if_pos hfp]
  · rw [if_neg hfp]
    refine ⟨by rw [hone, hct.1, if_neg hfp], ?_⟩
    rw [mem_forEachAppend]
    exact ⟨c, hc, hct.2 hfp⟩

theorem claim_C2_witness :
    if "absent" ∈ get_model_ssh_key_fingeprints (some ["aa:bb (other)"]) then
      (push_loop wAllOk "absent" "pkdata").countP (isAddKeyFor "ctl1" "model2") = 0
    else
      (push_loop wAllOk "absent" "pkdata").countP (isAddKeyFor "ctl1" "model2") = 1 ∧
        Event.addKeyCall "ctl1" "model2" "admin" "pkdata" ∈
          push_loop wAllOk "absent" "pkdata" :=
  claim_C2_add_key_calls wAllOk "absent" "pkdata" "ctl1" "model2" "admin"
    (some ["aa:bb (other)"]) ["model1", "model2"] (by decide) (by decide)
    rfl rfl (by decide) (by decide) rfl rfl rfl

/-- C3: every configured controller has its connection attempted, and every
listed model of a reachable controller has its connection attempted,
whatever failures the environment injects at the other controllers and
models (the per-model and per-controller exception handlers keep the loops
going). -/
theorem claim_C3_failure_isolation (w : World) (fp pk c : String)
    (ms : List String) (m : String)
    (hc : c ∈ w.controllerNames)
    (hcc : w.connectController c = .ok ()) (hlm : w.listModels c = .ok ms)
    (hm : m ∈ ms) :
    Event.ctrlConnect c ∈ push_loop w fp pk ∧
      Event.mdlConnect c m ∈ push_loop w fp pk := by
  have h1 : Event.ctrlConnect c ∈ process_controller w fp pk c := by
    rw [process_controller_ok_shape w fp pk c ms hcc hlm]
    simp
  have h2 : Event.mdlConnect c m ∈ process_model w fp pk c m := by
    unfold process_model with_model
    rcases hcm : w.connectModel c m with e1 | u1
    · simp
    · rcases hb : model_body w fp pk c m with ⟨evs, err⟩
      cases err <;> simp
  constructor
  · unfold push_loop
    rw [mem_forEachAppend]
    exact ⟨c, hc, h1⟩
  · unfold push_loop
    rw [mem_forEachAppend]
    refine ⟨c, hc, ?_⟩
    rw [process_controller_ok_shape w fp pk c ms hcc hlm]
    simp only [List.mem_cons, List.mem_append, mem_forEachAppend]
    exact Or.inr (Or.inl (Or.inr ⟨m, hm, h2⟩))

theorem claim_C3_witness :
    Event.ctrlConnect "good" ∈ push_loop wFaulty "fprint" "pkdata" ∧
      Event.mdlConnect "good" "m2" ∈ push_loop wFaulty "fprint" "pkdata" :=
  claim_C3_failure_isolation wFaulty "fprint" "pkdata" "good" ["m1", "m2"] "m2"
    (by decide) rfl rfl (by decide)

/-- C10: a null or empty get-ssh-keys result is mapped to the empty
fingerprint list, so the candidate key counts as absent: exactly one
add-key call is made for that model and no exception escapes the model's
processing. -/
theorem claim_C10_null_keys_add (w : World) (fp pk c m u : String)
    (r : Option (List String))
    (hcm : w.connectModel c m = .ok ()) (hu : w.accountUser c = .ok u)
    (hr : w.getKeysReply c m = .ok r)
    (hnull : r = none ∨ r = some []) (hak : w.addKey c m = .ok ()) :
    get_model_ssh_key_fingeprints r = [] ∧
    (process_model w fp pk c m).countP (isAddKeyFor c m) = 1 ∧
    Event.addKeyCall c m u pk ∈ process_model w fp pk c m ∧
    (with_model w fp pk c m).2 = none := by
  have hempty : get_model_ssh_key_fingeprints r = [] := by
    rcases hnull with rfl | rfl <;> rfl
  have hfp : fp ∉ get_model_ssh_key_fingeprints r := by
    rw [hempty]; simp
  have htg := count_process_model_target w fp pk c m u r hcm hu hr
  refine ⟨hempty, ?_, htg.2 hfp, ?_⟩
  · rw [htg.1, if_neg hfp]
  · unfold with_model model_body
    simp [hcm, hu, hr, hfp, hak]

theorem claim_C10_witness :
    get_model_ssh_key_fingeprints none = [] ∧
    (process_model wNullKeys "fprint" "pkdata" "ctl1" "model1").countP
        (isAddKeyFor "ctl1" "model1") = 1 ∧
    Event.addKeyCall "ctl1" "model1" "admin" "pkdata" ∈
        process_model wNullKeys "fprint" "pkdata" "ctl1" "model1" ∧
    (with_model wNullKeys "fprint" "pkdata" "ctl1" "model1").2 = none :=
  claim_C10_null_keys_add wNullKeys "fprint" "pkdata" "ctl1" "model1" "admin"
    none rfl rfl rfl (Or.inl rfl) rfl

/-! ### Connection scoping lemmas (C7) -/

theorem connRun_cons (w : World) (s : Nat × Nat) (e : Event) (t : List Event) :
    connRun w s (e :: t) = connRun w (connStep w s e) t := rfl

theorem connRun_append (w : World) (s : Nat × Nat) (t1 t2 : List Event) :
    connRun w s (t1 ++ t2) = connRun w (connRun w s t1) t2 :=
  List.foldl_append (connStep w) s t1 t2

theorem connOkFrom_cons (w : World) (s : Nat × Nat) (e : Event) (t : List Event) :
    connOkFrom w s (e :: t) = (connBounded s && connOkFrom w (connStep w s e) t) :=
  rfl

theorem connOkFrom_head (w : World) (s : Nat × Nat) (t : List Event)
    (h : connOkFrom w s t = true) : connBounded s = true := by
  cases t with
  | nil => exact h
  | cons e t =>
    rw [connOkFrom_cons, Bool.and_eq_true] at h
    exact h.1

theorem connOkFrom_append (w : World) (t1 t2 : List Event) (s : Nat × Nat) :
    connOkFrom w s (t1 ++ t2) = true ↔
      (connOkFrom w s t1 = true ∧ connOkFrom w (connRun w s t1) t2 = true) := by
  induction t1 generalizing s with
  | nil =>
    show connOkFrom w s t2 = true ↔ connBounded s = true ∧ connOkFrom w s t2 = true
    exact ⟨fun h => ⟨connOkFrom_head w s t2 h, h⟩, fun h => h.2⟩
  | cons e t ih =>
    rw [List.cons_append, connOkFrom_cons, connOkFrom_cons, connRun_cons,
      Bool.and_eq_true, Bool.and_eq_true, ih, and_assoc]

theorem model_body_conn (w : World) (fp pk c m : String) (s : Nat × Nat)
    (hb : connBounded s = true) :
    connRun w s (model_body w fp pk c m).1 = s ∧
      connOkFrom w s (model_body w fp pk c m).1 = true := by
  unfold model_body
  rcases w.accountUser c with e1 | user
  · exact ⟨rfl, hb⟩
  · rcases w.getKeysReply c m with e2 | reply
    · simp [connRun, connOkFrom, connStep, hb]
    · by_cases hfp : fp ∈ get_model_ssh_key_fingeprints reply
      · simp [hfp, connRun, connOkFrom, connStep, hb]
      · rcases w.addKey c m with e3 | u3 <;>
          simp [hfp, connRun, connOkFrom, connStep, hb]

theorem process_model_shape_err (w : World) (fp pk c m e1 : String)
    (hcm : w.connectModel c m = .error e1) :
    process_model w fp pk c m = [.mdlConnect c m, .logError] := by
  unfold process_model with_model
  rw [hcm]
  rfl

theorem process_model_shape_ok_none (w : World) (fp pk c m : String)
    (evs : List Event)
    (hcm : w.connectModel c m = .ok ()) (hb : model_body w fp pk c m = (evs, none)) :
    process_model w fp pk c m = .mdlConnect c m :: (evs ++ [.mdlClose c m]) := by
  unfold process_model with_model
  rw [hcm, hb]

theorem process_model_shape_ok_some (w : World) (fp pk c m : String)
    (evs : List Event) (err : String)
    (hcm : w.connectModel c m = .ok ())
    (hb : model_body w fp pk c m = (evs, some err)) :
    process_model w fp pk c m =
      (.mdlConnect c m :: (evs ++ [.mdlClose c m])) ++ [.logError] := by
  unfold process_model with_model
  rw [hcm, hb]

theorem process_model_conn (w : World) (fp pk c m : String) :
    connRun w (1, 0) (process_model w fp pk c m) = (1, 0) ∧
      connOkFrom w (1, 0) (process_model w fp pk c m) = true := by
  rcases hcm : w.connectModel c m with e1 | u1
  · rw [process_model_shape_err w fp pk c m e1 hcm]
    simp [connRun, connOkFrom, connStep, connBounded, exOk, hcm]
  · have hmb := model_body_conn w fp pk c m (1, 1) rfl
    rcases hb : model_body w fp pk c m with ⟨evs, err⟩
    rw [hb] at hmb
    have hstep : connStep w (1, 0) (Event.mdlConnect c m) = (1, 1) := by
      simp [connStep, hcm, exOk]
    cases err with
    | none =>
      rw [process_model_shape_ok_none w fp pk c m evs hcm hb]
      constructor
      · rw [connRun_cons, hstep, connRun_append, hmb.1]
        rfl
      · rw [connOkFrom_cons, hstep, Bool.and_eq_true]
        refine ⟨rfl, ?_⟩
        rw [connOkFrom_append]
        exact ⟨hmb.2, by rw [hmb.1]; rfl⟩
    | some err =>
      rw [process_model_shape_ok_some w fp pk c m evs err hcm hb]
      have hfirst : connRun w (1, 0)
          (Event.mdlConnect c m :: (evs ++ [Event.mdlClose c m])) = (1, 0) := by
        rw [connRun_cons, hstep, connRun_append, hmb.1]
        rfl
      constructor
      · rw [connRun_append, hfirst]
        rfl
      · rw [connOkFrom_append]
        refine ⟨?_, ?_⟩
        · rw [connOkFrom_cons, hstep, Bool.and_eq_true]
          refine ⟨rfl, ?_⟩
          rw [connOkFrom_append]
          exact ⟨hmb.2, by rw [hmb.1]; rfl⟩
        · rw [hfirst]
          rfl

theorem models_loop_conn (w : World) (fp pk c : String) :
    ∀ ms : List String,
      connRun w (1, 0) (forEachAppend (process_model w fp pk c) ms) = (1, 0) ∧
      connOkFrom w (1, 0) (forEachAppend (process_model w fp pk c) ms) = true
  | [] => ⟨rfl, rfl⟩
  | m :: t => by
    have hm := process_model_conn w fp pk c m
    have ht := models_loop_conn w fp pk c t
    rw [show forEachAppend (process_model w fp pk c) (m :: t) =
      process_model w fp pk c m ++ forEachAppend (process_model w fp pk c) t
      from rfl]
    constructor
    · rw [connRun_append, hm.1, ht.1]
    · rw [connOkFrom_append]
      exact ⟨hm.2, by rw [hm.1]; exact ht.2⟩

theorem controller_shape_err (w : World) (fp pk c e1 : String)
    (hcc : w.connectController c = .error e1) :
    process_controller w fp pk c = [.ctrlConnect c, .logError] := by
  unfold process_controller with_controller
  rw [hcc]
  rfl

theorem controller_shape_listfail (w : World) (fp pk c e2 : String)
    (hcc : w.connectController c = .ok ()) (hlm : w.listModels c = .error e2) :
    process_controller w fp pk c =
      (.ctrlConnect c :: ([.listModelsCall c] ++ [.ctrlClose c])) ++ [.logError] := by
  unfold process_controller with_controller controller_body
  rw [hcc, hlm]

theorem process_controller_conn (w : World) (fp pk c : String) :
    connRun w (0, 0) (process_controller w fp pk c) = (0, 0) ∧
      connOkFrom w (0, 0) (process_controller w fp pk c) = true := by
  rcases hcc : w.connectController c with e1 | u1
  · rw [controller_shape_err w fp pk c e1 hcc]
    simp [connRun, connOkFrom, connStep, connBounded, exOk, hcc]
  · have hstep : connStep w (0, 0) (Event.ctrlConnect c) = (1, 0) := by
      simp [connStep, hcc, exOk]
    rcases hlm : w.listModels c with e2 | ms
    · rw [controller_shape_listfail w fp pk c e2 hcc hlm]
      have hfirst : connRun w (0, 0)
          (Event.ctrlConnect c :: ([Event.listModelsCall c] ++ [Event.ctrlClose c]))
            = (0, 0) := by
        rw [connRun_cons, hstep]
        rfl
      constructor
      · rw [connRun_append, hfirst]
        rfl
      · rw [connOkFrom_append]
        refine ⟨?_, ?_⟩
        · rw [connOkFrom_cons, hstep, Bool.and_eq_true]
          exact ⟨rfl, rfl⟩
        · rw [hfirst]
          rfl
    · have hF := models_loop_conn w fp pk c ms
      rw [process_controller_ok_shape w fp pk c ms hcc hlm]
      have hfirst : connRun w (1, 0)
          (Event.listModelsCall c :: forEachAppend (process_model w fp pk c) ms)
            = (1, 0) := by
        rw [connRun_cons,
          show connStep w (1, 0) (Event.listModelsCall c) = (1, 0) from rfl, hF.1]
      constructor
      · rw [connRun_cons, hstep, connRun_append, hfirst]
        rfl
      · rw [connOkFrom_cons, hstep, Bool.and_eq_true]
        refine ⟨rfl, ?_⟩
        rw [connOkFrom_append]
        refine ⟨?_, ?_⟩
        · rw [connOkFrom_cons,
            show connStep w (1, 0) (Event.listModelsCall c) = (1, 0) from rfl,
            Bool.and_eq_true]
          exact ⟨rfl, hF.2⟩
        · rw [hfirst]
          rfl

theorem ctrl_loop_conn (w : World) (fp pk : String) :
    ∀ l : List String,
      connRun w (0, 0) (forEachAppend (process_controller w fp pk) l) = (0, 0) ∧
      connOkFrom w (0, 0) (forEachAppend (process_controller w fp pk) l) = true
  | [] => ⟨rfl, rfl⟩
  | c :: t => by
    have hc := process_controller_conn w fp pk c
    have ht := ctrl_loop_conn w fp pk t
    rw [show forEachAppend (process_controller w fp pk) (c :: t) =
      process_controller w fp pk c ++ forEachAppend (process_controller w fp pk) t
      from rfl]
    constructor
    · rw [connRun_append, hc.1, ht.1]
    · rw [connOkFrom_append]
      exact ⟨hc.2, by rw [hc.1]; exact ht.2⟩

/-- C7: every connection acquired during key propagation is released: at
every intermediate point of the trace at most one controller connection and
at most one model connection are open, and at the end of the run every
connection has been closed. -/
theorem claim_C7_scoped_connections (w : World) (fp pk : String) :
    connOkFrom w (0, 0) (push_loop w fp pk) = true ∧
      connRun w (0, 0) (push_loop w fp pk) = (0, 0) := by
  have h := ctrl_loop_conn w fp pk w.controllerNames
  exact ⟨h.2, h.1⟩

/-- C4: whenever the public key is read and fingerprinted successfully, the
key-push operation returns the value `"success"`, for every possible
combination of per-controller and per-model outcomes: remote failures are
only logged, never propagated. -/
theorem claim_C4_reports_success (w : World) (md5hex : List Nat → String)
    (b64decode : String → List Nat) (raw t b c : String)
    (hread : w.readPubkey = some raw)
    (hs : splitWS (pyStrip raw) = [t, b, c]) :
    push_ssh_keys w md5hex b64decode = .ok "success" := by
  have hg : gen_libjuju_ssh_key_fingerprint md5hex b64decode (pyStrip raw) =
      .ok (zip_colon_join (md5hex (b64decode b)) ++ " (" ++ c ++ ")") := by
    unfold gen_libjuju_ssh_key_fingerprint
    rw [hs]
  unfold push_ssh_keys push_ssh_keys_to_models
  simp only [hread, hg]

theorem claim_C4_witness :
    push_ssh_keys wAllOk mdWit b64Wit = .ok "success" :=
  claim_C4_reports_success wAllOk mdWit b64Wit "ssh-rsa QUJD juju-backup"
    "ssh-rsa" "QUJD" "juju-backup" rfl (by decide)

/-! ### Config validation (C5) -/

theorem checkYamlField_iff (parse : String → Except Unit YamlVal)
    (content : String) :
    checkYamlField parse content = true ↔ fieldAccepted parse content := by
  unfold checkYamlField fieldAccepted
  rcases hp : parse content with e | v
  · simp
  · cases v with
    | mapping keys => simp [List.elem_iff]
    | nonMapping => simp

/-- C5: config validation returns True exactly when each checked option
parses as a YAML mapping containing the top-level key "controllers", and
returns False together with a blocked-status message exactly when some
option fails that check. -/
theorem claim_C5_validate_config (parse : String → Except Unit YamlVal)
    (controllersRaw accountsRaw : String) :
    ((validate_config parse controllersRaw accountsRaw).1 = true ↔
      (fieldAccepted parse controllersRaw ∧ fieldAccepted parse accountsRaw)) ∧
    ((validate_config parse controllersRaw accountsRaw).1 = false ↔
      ∃ msg, (validate_config parse controllersRaw accountsRaw).2 = some msg) := by
  have e1 := checkYamlField_iff parse controllersRaw
  have e2 := checkYamlField_iff parse accountsRaw
  unfold validate_config
  by_cases h1 : checkYamlField parse controllersRaw = true
  · by_cases h2 : checkYamlField parse accountsRaw = true
    · have hv : validate_fields parse
          [("controllers", controllersRaw), ("accounts", accountsRaw)] =
            (true, none) := by
        simp [validate_fields, h1, h2]
      rw [hv]
      constructor
      · simp
        exact ⟨e1.mp h1, e2.mp h2⟩
      · simp
    · have hB : ¬ fieldAccepted parse accountsRaw := fun hb => h2 (e2.mpr hb)
      have hv : validate_fields parse
          [("controllers", controllersRaw), ("accounts", accountsRaw)] =
            (false, some "Invalid yaml for \x27accounts\x27 option") := by
        simp [validate_fields, h1, h2]
      rw [hv]
      constructor
      · simp [hB]
      · simp
  · have hA : ¬ fieldAccepted parse controllersRaw := fun ha => h1 (e1.mpr ha)
    have hv : validate_fields parse
        [("controllers", controllersRaw), ("accounts", accountsRaw)] =
          (false, some "Invalid yaml for \x27controllers\x27 option") := by
      simp [validate_fields, h1]
    rw [hv]
    constructor
    · simp [hA]
    · simp

/-! ### Substring lemmas (C8) -/

theorem leadsList_self_append (p r : List Char) : leadsList p (p ++ r) = true := by
  induction p with
  | nil => rfl
  | cons a ps ih => simp [leadsList, ih]

theorem occursIn_of_leadsList (p s : List Char) (h : leadsList p s = true) :
    occursIn p s = true := by
  cases s <;> simp [occursIn, h]

theorem occursIn_append_right (p a b : List Char) (h : occursIn p b = true) :
    occursIn p (a ++ b) = true := by
  induction a with
  | nil => exact h
  | cons x xs ih => simp [occursIn, ih]

theorem occursIn_self_append (p r : List Char) : occursIn p (p ++ r) = true :=
  occursIn_of_leadsList _ _ (leadsList_self_append p r)

theorem occursIn_pat_split (a x y r : List Char) :
    occursIn (x ++ y) (a ++ (x ++ (y ++ r))) = true := by
  have h : x ++ (y ++ r) = (x ++ y) ++ r := by rw [List.append_assoc]
  rw [h]
  exact occursIn_append_right _ a _ (occursIn_self_append (x ++ y) r)

theorem string_data_append (a b : String) : (a ++ b).data = a.data ++ b.data :=
  rfl

theorem occursIn_pat_here (x y r : List Char) :
    occursIn (x ++ y) (x ++ (y ++ r)) = true := by
  rw [show x ++ (y ++ r) = (x ++ y) ++ r from (List.append_assoc x y r).symm]
  exact occursIn_self_append _ _

/-- C8 (amended): the scheduled job line always carries the debug flag;
with a nonzero retention period it carries the purge flag, with a nonzero
timeout the per-task timeout flag, and with a nonempty `exclude-models`
option one `--omit-model` flag per excluded model name; the crontab file is
written with exactly this line and the backup-processing operation is
invoked as `process_backups` with the omitted-models argument. -/
theorem claim_C8_cron_flags (cfg : CrontabConfig) (omitModels : Option (List String))
    (hr : cfg.backupRetentionPeriod ≠ 0) (ht : cfg.timeout ≠ 0)
    (he : cfg.excludeModels ≠ "") :
    containsStr (cron_job_text cfg) " --debug" = true ∧
    containsStr (cron_job_text cfg)
      (" --purge " ++ toString cfg.backupRetentionPeriod) = true ∧
    containsStr (cron_job_text cfg)
      (" --task-timeout " ++ toString cfg.timeout) = true ∧
    containsStr (cron_job_text cfg)
      (String.intercalate " " ((pySplit cfg.excludeModels ',').map
        (fun m => "--omit-model " ++ m))) = true ∧
    (perform_backup_call omitModels).method = "process_backups" ∧
    (perform_backup_call omitModels).omit_models = omitModels ∧
    update_crontab cfg = [Event.writeFile cfg.crontabPath (cron_job_text cfg)] := by
  refine ⟨?_, ?_, ?_, ?_, rfl, rfl, rfl⟩ <;>
    unfold containsStr cron_job_text <;>
    simp only [if_pos hr, if_pos ht, if_pos he, string_data_append,
      List.append_assoc]
  · apply occursIn_append_right
    apply occursIn_append_right
    apply occursIn_append_right
    apply occursIn_append_right
    apply occursIn_append_right
    apply occursIn_append_right
    apply occursIn_append_right
    exact occursIn_self_append _ _
  · apply occursIn_append_right
    apply occursIn_append_right
    apply occursIn_append_right
    apply occursIn_append_right
    apply occursIn_append_right
    apply occursIn_append_right
    apply occursIn_append_right
    apply occursIn_append_right
    exact occursIn_pat_here _ _ _
  · apply occursIn_append_right
    apply occursIn_append_right
    apply occursIn_append_right
    apply occursIn_append_right
    apply occursIn_append_right
    apply occursIn_append_right
    apply occursIn_append_right
    apply occursIn_append_right
    apply occursIn_append_right
    apply occursIn_append_right
    exact occursIn_pat_here _ _ _
  · apply occursIn_append_right
    apply occursIn_append_right
    apply occursIn_append_right
    apply occursIn_append_right
    apply occursIn_append_right
    apply occursIn_append_right
    apply occursIn_append_right
    apply occursIn_append_right
    apply occursIn_append_right
    apply occursIn_append_right
    apply occursIn_append_right
    apply occursIn_append_right
    apply occursIn_append_right
    exact occursIn_self_append _ _

/-- Counterexample to C8 as stated: at a concrete config excluding
`modelA` and `modelB`, the generated job line carries one `--omit-model`
flag per excluded model name and contains no "controller" flag text at
all, and the delegated call passes the omitted models, not omitted
controllers. -/
theorem claim_C8_counterexample :
    containsStr (cron_job_text cfgCex) "--omit-model modelA" = true ∧
    containsStr (cron_job_text cfgCex) "--omit-model modelB" = true ∧
    containsStr (cron_job_text cfgCex) "controller" = false ∧
    (perform_backup_call (some ["modelA", "modelB"])).omit_models =
      some ["modelA", "modelB"] := by
  refine ⟨by decide, by decide, by decide, rfl⟩

theorem claim_C8_witness :
    containsStr (cron_job_text cfgCex) " --debug" = true ∧
    containsStr (cron_job_text cfgCex)
      (" --purge " ++ toString cfgCex.backupRetentionPeriod) = true ∧
    containsStr (cron_job_text cfgCex)
      (" --task-timeout " ++ toString cfgCex.timeout) = true ∧
    containsStr (cron_job_text cfgCex)
      (String.intercalate " " ((pySplit cfgCex.excludeModels ',').map
        (fun m => "--omit-model " ++ m))) = true ∧
    (perform_backup_call (some ["modelA"])).method = "process_backups" ∧
    (perform_backup_call (some ["modelA"])).omit_models = some ["modelA"] ∧
    update_crontab cfgCex =
      [Event.writeFile cfgCex.crontabPath (cron_job_text cfgCex)] :=
  claim_C8_cron_flags cfgCex (some ["modelA"]) (by decide) (by decide) (by decide)
